import Mathlib

set_option linter.unusedVariables false
set_option linter.unnecessarySeqFocus false
set_option synthInstance.maxSize 2048

/-! Shallow embedding of the smartwatts per-socket report handler
    (src/smartwatts/handler.py) together with the power-model layer it drives.
    Python dictionaries (which iterate in insertion order) are embedded as
    association lists in insertion order; machine floats are embedded as exact
    rationals; raised exceptions become Except values. -/

/-- Decidable equality for Except values, used to evaluate the handler on
    concrete inputs. -/
instance {ε α : Type} [DecidableEq ε] [DecidableEq α] : DecidableEq (Except ε α)
  | .ok a, .ok b => decidable_of_iff (a = b) (by simp)
  | .ok _, .error _ => isFalse (by simp)
  | .error _, .ok _ => isFalse (by simp)
  | .error d, .error e => decidable_of_iff (d = e) (by simp)

/-- Lookup in an insertion-ordered association list (Python dict access). -/
def dget {κ α : Type} [DecidableEq κ] : List (κ × α) → κ → Option α
  | [], _ => none
  | (k0, v) :: m, k => if k0 = k then some v else dget m k

/-- Assignment in an insertion-ordered association list (Python dict item
    assignment): an existing key keeps its position, a new key is appended. -/
def dset {κ α : Type} [DecidableEq κ] : List (κ × α) → κ → α → List (κ × α)
  | [], k, v => [(k, v)]
  | (k0, v0) :: m, k, v =>
    if k0 = k then (k0, v) :: m else (k0, v0) :: dset m k v

/-- Python collections.defaultdict(int) accumulation: add v at key k,
    treating a missing key as 0. -/
def dadd {κ : Type} [DecidableEq κ] (m : List (κ × Int)) (k : κ) (v : Int) :
    List (κ × Int) :=
  match dget m k with
  | some w => dset m k (w + v)
  | none => m ++ [(k, v)]

/-- Python dict.pop: remove the key and return its value and the remainder,
    or none when the key is absent (a KeyError in Python). -/
def dpop {κ α : Type} [DecidableEq κ] : List (κ × α) → κ → Option (α × List (κ × α))
  | [], _ => none
  | (k0, v0) :: m, k =>
    if k0 = k then some (v0, m)
    else (dpop m k).map (fun p => (p.1, (k0, v0) :: p.2))

/-- An HWPC report: groups is group_name → socket_id → cpu_id → event_name →
    raw counter value, each level an insertion-ordered mapping. -/
structure HWPCReport where
  timestamp : Nat
  sensor : String
  target : String
  groups : List (String × List (String × List (String × List (String × Int))))
  deriving DecidableEq

/-- A power report, with the metadata mapping of the source flattened into the
    scope, socket and formula fields. -/
structure PowerReport where
  timestamp : Nat
  sensor : String
  target : String
  power : ℚ
  scope : String
  socket : String
  formula : String
  deriving DecidableEq

/-- Modelled from the spec: the frequency-layer key of smartwatts/formula.py
    is absent from the sources; per section 4.3 a model is addressed either by
    a clamped frequency band or by a dedicated idle key. -/
inductive FreqKey where
  | idle : FreqKey
  | band : Int → FreqKey
  deriving DecidableEq

/-- Modelled from the spec: the linear power model of smartwatts/formula.py is
    absent from the sources; per section 4.3 it keeps a bounded history of
    (features, label) samples, coefficients and an intercept, a stable hash of
    the fitted parameters, and a fitted flag. -/
structure PowerModel where
  history : List (List (String × Int) × ℚ)
  coefficients : List (String × ℚ)
  intercept : ℚ
  hash : String
  fitted : Bool
  deriving DecidableEq

/-- Modelled from the spec: learn_min_samples_required, default 10. -/
def learn_min_samples_required : Nat := 10

/-- Modelled from the spec: learn_history_window_size, default 60. -/
def learn_history_window_size : Nat := 60

/-- Python str.startswith, evaluated over the character lists. -/
def str_starts_with (s pre : String) : Bool := pre.data.isPrefixOf s.data

/-- Lexicographic strict order on strings, evaluated over the character
    lists. -/
def str_lt (s t : String) : Bool := decide (s.data < t.data)

/-- Insert a string into a sorted list of strings (ascending, stable). -/
def insertSorted (s : String) : List String → List String
  | [] => [s]
  | t :: ts => if str_lt t s then t :: insertSorted s ts else s :: t :: ts

/-- Sort a list of strings ascending by insertion sort. -/
def sortStrings (l : List String) : List String := l.foldr insertSorted []

/-- The sorted list of distinct feature names appearing in a history. -/
def historyFeatureNames (hist : List (List (String × Int) × ℚ)) : List String :=
  sortStrings (hist.foldl
    (fun acc p => p.1.foldl
      (fun a q => if a.contains q.1 then a else a ++ [q.1]) acc) [])

/-- One Gaussian-elimination step: subtract a multiple of the pivot row so the
    leading entry vanishes, then drop the leading entry. -/
def elimStep (p : List ℚ) (r : List ℚ) : List ℚ :=
  (List.zipWith (fun x y => x - r.headD 0 * y) r p).tail

/-- Solve an augmented linear system (rows of length n + 1) for n unknowns by
    Gaussian elimination with back substitution; a column with no usable pivot
    yields 0 for its unknown. -/
def gaussSolve : Nat → List (List ℚ) → List ℚ
  | 0, _ => []
  | n + 1, rows =>
    match rows.partition (fun r => decide (r.headD 0 ≠ 0)) with
    | ([], _) => 0 :: gaussSolve n (rows.map List.tail)
    | (p :: others, zs) =>
      let p1 := p.map (fun x => x / p.headD 1)
      let sol := gaussSolve n ((others ++ zs).map (elimStep p1))
      let t := p1.tail
      (t.getLastD 0 - (List.zipWith (fun c x => c * x) t.dropLast sol).sum) :: sol

/-- Modelled from the spec: closed-form ordinary least squares over the
    history (section 4.3 fit): build the normal equations of the design matrix
    (an intercept column followed by the sorted feature columns, missing
    features read as 0) and solve them. Returns the vector intercept followed
    by one coefficient per sorted feature name. -/
def olsSolve (names : List String) (hist : List (List (String × Int) × ℚ)) :
    List ℚ :=
  let d := names.length + 1
  let rows := hist.map (fun s =>
    ((1 : ℚ) :: names.map (fun n => (((dget s.1 n).getD 0 : Int) : ℚ))) ++ [s.2])
  let aug := (List.range d).map (fun i =>
    ((List.range d).map (fun j =>
      (rows.map (fun r => r.getD i 0 * r.getD j 0)).sum))
    ++ [(rows.map (fun r => r.getD i 0 * r.getD d 0)).sum])
  gaussSolve d aug

/-- Modelled from the spec: a stable digest of the fitted parameters (sorted
    feature names with their coefficients, and the intercept), used as the
    formula identifier of emitted reports. -/
def model_hash (coeffs : List (String × ℚ)) (intercept : ℚ) : String :=
  String.intercalate ";" (coeffs.map (fun p => p.1 ++ "=" ++ toString p.2))
    ++ "|" ++ toString intercept

/-- Modelled from the spec: record appends a (features, label) sample to the
    bounded history, dropping the oldest sample beyond the window (section
    4.3). -/
def PowerModel.record (m : PowerModel) (features : List (String × Int))
    (label : ℚ) : PowerModel :=
  let hist := m.history ++ [(features, label)]
  { m with history :=
      if learn_history_window_size < hist.length then hist.tail else hist }

/-- Modelled from the spec: fit runs closed-form least squares over the
    history once it holds at least learn_min_samples_required samples, sets the
    fitted flag and recomputes the hash; below that it leaves the model
    unchanged (section 4.3). -/
def PowerModel.fit (m : PowerModel) : PowerModel :=
  if learn_min_samples_required ≤ m.history.length then
    let names := historyFeatureNames m.history
    let beta := olsSolve names m.history
    let coeffs := names.zip beta.tail
    { m with coefficients := coeffs, intercept := beta.headD 0, fitted := true,
             hash := model_hash coeffs (beta.headD 0) }
  else m

/-- Modelled from the spec: the store operation of smartwatts/formula.py is
    absent from the sources; per sections 4.4 and 4.5 it records the aggregate
    core features with the RAPL power (the single value of the RAPL events
    group) as label, then fits the model. The pcu argument is accepted as in
    the handler's call but the recorded features are the core features, as the
    spec words it. -/
def PowerModel.store (m : PowerModel) (rapl : List (String × ℚ))
    (pcu : List (String × Int)) (core : List (String × Int)) : PowerModel :=
  (m.record core ((rapl.map Prod.snd).headD 0)).fit

/-- The exception raised by a prediction on a model that was never fitted
    (named as in the source import). -/
inductive PowerModelNotInitializedException where
  | mk : PowerModelNotInitializedException
  deriving DecidableEq

/-- Sum of the values of an events group, as a rational. -/
def sum_values (l : List (String × Int)) : ℚ := ((l.map Prod.snd).sum : Int)

/-- The linear predictor over the intersected feature names: missing features
    read as zero. -/
def dot_product (coeffs : List (String × ℚ)) (features : List (String × Int)) :
    ℚ :=
  (coeffs.map (fun p => p.2 * (((dget features p.1).getD 0 : Int) : ℚ))).sum

/-- Modelled from the spec: compute_power_estimation of smartwatts/formula.py
    is absent from the sources. Per section 4.3 a fitted model predicts the
    system power linearly from the aggregate core features, and per section 4.5
    step 5 the per-target estimate apportions that prediction by the target's
    share of the core feature values (the model is returned unchanged). On a
    model that was never fitted the call records the sample (record then fit,
    so the model can bootstrap, per section 4.5 step 4 and the section 7 entry
    for ModelNotInitialized) and fails. Division is total over the rationals
    (a zero denominator yields 0). -/
def PowerModel.compute_power_estimation (m : PowerModel)
    (rapl : List (String × ℚ)) (pcu : List (String × Int))
    (global_core target_core : List (String × Int)) :
    PowerModel × Except PowerModelNotInitializedException ℚ :=
  if m.fitted then
    let system := m.intercept + dot_product m.coefficients global_core
    (m, .ok (system * sum_values target_core / sum_values global_core))
  else
    (m.store rapl pcu global_core, .error .mk)

/-- A model before any sample was recorded. -/
def PowerModel.initial : PowerModel :=
  { history := [], coefficients := [], intercept := 0, hash := "", fitted := false }

/-- Modelled from the spec: the SmartWattsFormula of smartwatts/formula.py is
    absent from the sources; per section 4.3 it is a lazily populated mapping
    from frequency-layer key to power model, with the clock configuration of
    section 6. -/
structure SmartWattsFormula where
  models : List (FreqKey × PowerModel)
  base_clock : Int
  freq_min : Int
  freq_max : Int
  deriving DecidableEq

/-- Modelled from the spec: the frequency-layer key (section 4.3) buckets the
    observed average frequency, floor of unhalted_cycles over reference_cycles
    times the base clock, clamped to the configured band; a zero cycles
    counter selects the dedicated idle key. -/
def frequency_layer_key (f : SmartWattsFormula)
    (core : List (String × Int)) : FreqKey :=
  let unhalted := (dget core "unhalted_cycles").getD 0
  let ref := (dget core "reference_cycles").getD 0
  if ref = 0 then .idle
  else .band (max f.freq_min (min f.freq_max (unhalted * f.base_clock / ref)))

/-- Modelled from the spec: get_power_model looks up the model for the
    frequency-layer key of the aggregate core events, creating it when absent
    (section 4.3); returns the key, the model and the updated collection. -/
def SmartWattsFormula.get_power_model (f : SmartWattsFormula)
    (core : List (String × Int)) : FreqKey × PowerModel × SmartWattsFormula :=
  let k := frequency_layer_key f core
  match dget f.models k with
  | some m => (k, m, f)
  | none => (k, PowerModel.initial,
             { f with models := f.models ++ [(k, PowerModel.initial)] })

/-- Write a model back under its key. -/
def SmartWattsFormula.set_model (f : SmartWattsFormula) (k : FreqKey)
    (m : PowerModel) : SmartWattsFormula :=
  { f with models := dset f.models k m }

/-- The per-socket report handler state (handler.py, ReportHandler.__init__):
    configuration, the ordered tick buffer, and the formula. The scope is kept
    as its string value. -/
structure ReportHandler where
  sensor : String
  socket : String
  scope : String
  rapl_event : String
  error_threshold : ℚ
  ticks : List (Nat × List (String × HWPCReport))
  formula : SmartWattsFormula
  deriving DecidableEq

/-- handler.py _gen_rapl_events_group: takes the first CPU of the rapl group
    on the handler's socket (Python next(iter(...values())), i.e. the first
    entry in iteration order) and converts the reference event raw value by
    ldexp(v, -32), i.e. v times 2 to the power -32, modelled exactly over the
    rationals. A missing group, socket, CPU or event is a raised KeyError or
    StopIteration, modelled as none. -/
def ReportHandler.gen_rapl_events_group (h : ReportHandler) (r : HWPCReport) :
    Option (List (String × ℚ)) := do
  let socks ← dget r.groups "rapl"
  let cpus ← dget socks h.socket
  let fst ← cpus.head?
  let v ← dget fst.2 h.rapl_event
  some [(h.rapl_event, (v : ℚ) / 2 ^ 32)]

/-- handler.py _gen_pcu_events_group: the first CPU of the pcu group on the
    handler's socket (first entry in iteration order), with events whose name
    starts with time_ filtered out. -/
def ReportHandler.gen_pcu_events_group (h : ReportHandler) (r : HWPCReport) :
    Option (List (String × Int)) := do
  let socks ← dget r.groups "pcu"
  let cpus ← dget socks h.socket
  let fst ← cpus.head?
  some (fst.2.filter (fun q => !(str_starts_with q.1 "time_")))

/-- handler.py _gen_core_events_group: sum each non time_ event across all
    CPUs of the handler's socket into a defaultdict(int). -/
def ReportHandler.gen_core_events_group (h : ReportHandler) (r : HWPCReport) :
    Option (List (String × Int)) := do
  let socks ← dget r.groups "core"
  let cpus ← dget socks h.socket
  some (cpus.foldl
    (fun acc p =>
      (p.2.filter (fun q => !(str_starts_with q.1 "time_"))).foldl
        (fun a q => dadd a q.1 q.2) acc) [])

/-- handler.py _gen_agg_core_report_from_running_targets: element-wise sum of
    the core events groups of the given target reports. -/
def ReportHandler.gen_agg_core_report_from_running_targets (h : ReportHandler)
    (targets : List (String × HWPCReport)) : Option (List (String × Int)) :=
  targets.foldlM
    (fun acc p => do
      let g ← h.gen_core_events_group p.2
      some (g.foldl (fun a q => dadd a q.1 q.2) acc)) []

/-- handler.py _gen_power_report: build a power report for the handler's
    sensor, socket and scope. -/
def ReportHandler.gen_power_report (h : ReportHandler) (timestamp : Nat)
    (target formula : String) (power : ℚ) : PowerReport :=
  { timestamp, sensor := h.sensor, target, power,
    scope := h.scope, socket := h.socket, formula }

/-- The failures process_oldest_tick can raise: popitem on an empty buffer,
    pop of a missing all entry (the incomplete-tick failure of the spec), and
    a missing group, socket, CPU or event while decoding (the malformed-report
    failure of the spec). All three are KeyError or StopIteration in Python. -/
inductive TickError where
  | emptyBuffer : TickError
  | incompleteTick : TickError
  | malformedReport : TickError
  deriving DecidableEq

/-- The per-target loop of _process_oldest_tick: one power report per running
    target, in the iteration order of the bucket; a failure at any target
    aborts the whole loop (the Python exception propagates). -/
def ReportHandler.target_reports (h : ReportHandler) (timestamp : Nat)
    (model : PowerModel) (rapl : List (String × ℚ)) (pcu : List (String × Int))
    (global_core : List (String × Int)) :
    List (String × HWPCReport) → Option (List PowerReport)
  | [] => some []
  | p :: rest => do
    let target_core ← h.gen_core_events_group p.2
    match (model.compute_power_estimation rapl pcu global_core target_core).2 with
    | .ok target_power => do
        let others ← h.target_reports timestamp model rapl pcu global_core rest
        some (h.gen_power_report timestamp p.1 model.hash target_power :: others)
    | .error _ => none

/-- handler.py _process_oldest_tick: pop the oldest tick bucket, decode the
    all report, fetch the model, emit the RAPL report, then try the system
    prediction; on success emit the global report, the per-target reports, and
    store the sample when the RAPL error exceeds the threshold; on
    ModelNotInitialized return only the RAPL report (with the bootstrap sample
    stored by the estimation, see compute_power_estimation). The popped bucket
    is removed from the buffer in every outcome. -/
def ReportHandler.process_oldest_tick (h : ReportHandler) :
    ReportHandler × Except TickError (List PowerReport) :=
  match h.ticks with
  | [] => (h, .error .emptyBuffer)
  | (timestamp, hwpc_reports) :: rest =>
    let h1 : ReportHandler := { h with ticks := rest }
    match dpop hwpc_reports "all" with
    | none => (h1, .error .incompleteTick)
    | some (global_report, targets) =>
      match h.gen_rapl_events_group global_report,
            h.gen_pcu_events_group global_report,
            h.gen_agg_core_report_from_running_targets targets with
      | some rapl, some pcu, some global_core =>
        let kmf := h.formula.get_power_model global_core
        let rapl_power := (dget rapl h.rapl_event).getD 0
        let rapl_report := h.gen_power_report timestamp "rapl" h.rapl_event rapl_power
        match kmf.2.1.compute_power_estimation rapl pcu global_core global_core with
        | (model1, .error _) =>
          ({ h1 with formula := kmf.2.2.set_model kmf.1 model1 }, .ok [rapl_report])
        | (_, .ok system_power) =>
          let global_report := h.gen_power_report timestamp "global" kmf.2.1.hash system_power
          match h.target_reports timestamp kmf.2.1 rapl pcu global_core targets with
          | none => ({ h1 with formula := kmf.2.2 }, .error .malformedReport)
          | some treps =>
            let model2 := if |rapl_power - system_power| > h.error_threshold
                          then kmf.2.1.store rapl pcu global_core else kmf.2.1
            ({ h1 with formula := kmf.2.2.set_model kmf.1 model2 },
             .ok (rapl_report :: global_report :: treps))
      | _, _, _ => (h1, .error .malformedReport)

/-- The tick-buffer insertion of _process_report: setdefault the bucket of the
    report's timestamp and store the report under its target (last writer
    wins, insertion order kept). -/
def tick_insert (ticks : List (Nat × List (String × HWPCReport)))
    (r : HWPCReport) : List (Nat × List (String × HWPCReport)) :=
  dset ticks r.timestamp (dset ((dget ticks r.timestamp).getD []) r.target r)

/-- handler.py _process_report: insert the report into its tick bucket, then
    release and process the oldest tick when more than 5 buckets are buffered;
    otherwise return no reports. -/
def ReportHandler.process_report (h : ReportHandler) (r : HWPCReport) :
    ReportHandler × Except TickError (List PowerReport) :=
  let ticks1 := tick_insert h.ticks r
  let h1 : ReportHandler := { h with ticks := ticks1 }
  if ticks1.length > 5 then h1.process_oldest_tick else (h1, .ok [])

/-- Feed a stream of HWPC reports through the handler and collect every
    emitted power report, in order; a report whose processing raises emits
    nothing (handler.py handle only forwards a returned result). -/
def ReportHandler.run_reports : ReportHandler → List HWPCReport → List PowerReport
  | _, [] => []
  | h, r :: rs =>
    let step := h.process_report r
    (match step.2 with
     | .ok ps => ps
     | .error _ => []) ++ step.1.run_reports rs

/-- Feed a stream of HWPC reports through the handler and collect the
    timestamps of the tick buckets the buffer releases, in order (a bucket is
    released by popitem even when its processing then fails). -/
def ReportHandler.run_releases : ReportHandler → List HWPCReport → List Nat
  | _, [] => []
  | h, r :: rs =>
    let t0 := tick_insert h.ticks r
    (if t0.length > 5 then (t0.map Prod.fst).take 1 else [])
      ++ (h.process_report r).1.run_releases rs

/-- A fresh formula collection with the clock configuration of the acceptance
    test (base clock 100, band 4 to 42). -/
def SmartWattsFormula.initial : SmartWattsFormula :=
  { models := [], base_clock := 100, freq_min := 4, freq_max := 42 }

/-- A fresh handler with an empty tick buffer and a fresh formula. -/
def mkHandler (sensor socket scope rapl_event : String)
    (error_threshold : ℚ) : ReportHandler :=
  { sensor, socket, scope, rapl_event, error_threshold, ticks := [],
    formula := SmartWattsFormula.initial }

/-! Definitions following the specification's words, for comparison with the
    embedded source. -/

/-- The RAPL power value exactly as the specification words it: the raw
    counter value times 2 to the power -32, divided by the configured sampling
    interval in seconds (default 1). -/
def spec_rapl_power (v : Int) (sampling_interval : ℚ) : ℚ :=
  (v : ℚ) * (1 / 2 ^ 32) / sampling_interval

/-- The entry with the lexicographically smallest key of a string-keyed
    association list (ties keep the earlier entry). -/
def minKeyEntry {α : Type} : List (String × α) → Option (String × α)
  | [] => none
  | p :: m =>
    match minKeyEntry m with
    | none => some p
    | some q => some (if str_lt q.1 p.1 then q else p)

/-- The PCU events group as the specification words it: the CPU with the
    lexicographically smallest cpu_id on the socket, events prefixed time_
    filtered out. -/
def spec_pcu_events_smallest (socket : String) (r : HWPCReport) :
    Option (List (String × Int)) := do
  let socks ← dget r.groups "pcu"
  let cpus ← dget socks socket
  let fst ← minKeyEntry cpus
  some (fst.2.filter (fun q => !(str_starts_with q.1 "time_")))

/-- The sum, over the matching entries of every CPU of a socket, of one
    event's values: the specification's reading of the core events group. -/
def spec_event_total (cpus : List (String × List (String × Int)))
    (e : String) : Int :=
  (cpus.map (fun p => ((p.2.filter (fun q => q.1 == e)).map Prod.snd).sum)).sum

/-! Concrete states used by the counterexamples and witnesses. -/

/-- A system report whose rapl group carries the reference event with raw
    value v on a single CPU of socket 0, with empty pcu and core groups. -/
def allReport (ts : Nat) (v : Int) : HWPCReport :=
  { timestamp := ts, sensor := "s", target := "all",
    groups := [("rapl", [("0", [("cpu0", [("RAPL_ENERGY_PKG", v)])])]),
               ("pcu", [("0", [("cpu0", [])])]),
               ("core", [("0", [("cpu0", [])])])] }

/-- A target report with an empty core group on socket 0. -/
def targetReport (ts : Nat) (target : String) : HWPCReport :=
  { timestamp := ts, sensor := "s", target,
    groups := [("core", [("0", [("cpu0", [])])])] }

/-- A handler holding one complete tick bucket whose all report carries the
    RAPL raw value 2 to the power 32, with no running target. -/
def c1_handler : ReportHandler :=
  { mkHandler "s" "0" "cpu" "RAPL_ENERGY_PKG" 5 with
    ticks := [(1, [("all", allReport 1 (2 ^ 32))])] }

/-- A handcrafted model that has been fitted (intercept 7, no coefficients). -/
def fittedModel : PowerModel :=
  { history := [([], 7)], coefficients := [], intercept := 7, hash := "m0",
    fitted := true }

/-- A handler holding one tick bucket with running targets b then a (in that
    insertion order), and a fitted model for the idle key so the per-target
    loop runs; the error threshold is large so no retraining is triggered. -/
def c5_handler : ReportHandler :=
  { mkHandler "s" "0" "cpu" "RAPL_ENERGY_PKG" 1000 with
    ticks := [(3, [("all", allReport 3 (2 ^ 32)),
                   ("b", targetReport 3 "b"),
                   ("a", targetReport 3 "a")])],
    formula := { SmartWattsFormula.initial with
                 models := [(FreqKey.idle, fittedModel)] } }

/-- A handler whose oldest tick bucket lacks the all target while a younger
    complete bucket follows it. -/
def c6_handler : ReportHandler :=
  { mkHandler "s" "0" "cpu" "RAPL_ENERGY_PKG" 5 with
    ticks := [(2, [("x", targetReport 2 "x")]),
              (3, [("all", allReport 3 1)])] }

/-- The raw value of the handler's RAPL reference event on the first CPU of
    the rapl group of the all report of the oldest buffered tick. -/
def oldest_all_rapl_raw (h : ReportHandler) : Option Int := do
  let p ← h.ticks.head?
  let g ← dget p.2 "all"
  let socks ← dget g.groups "rapl"
  let cpus ← dget socks h.socket
  let fst ← cpus.head?
  dget fst.2 h.rapl_event

/-- The running targets of the oldest buffered tick, in the bucket's
    insertion order (the all entry removed). -/
def oldest_running_targets (h : ReportHandler) : List String :=
  match h.ticks with
  | [] => []
  | (_, bucket) :: _ =>
    match dpop bucket "all" with
    | some p => p.2.map Prod.fst
    | none => []

/-- A fresh handler for socket 0, used to decode standalone reports. -/
def c8_handler : ReportHandler := mkHandler "s" "0" "cpu" "RAPL_ENERGY_PKG" 5

/-- A system report whose pcu group lists CPU b before CPU a (insertion
    order), with different event values on the two CPUs. -/
def c8_report_ba : HWPCReport :=
  { timestamp := 1, sensor := "s", target := "all",
    groups := [("pcu", [("0", [("b", [("EV", 2), ("time_x", 9)]),
                               ("a", [("EV", 7)])])])] }

/-- The same pcu content as c8_report_ba with the two CPUs listed in the
    opposite order. -/
def c8_report_ab : HWPCReport :=
  { timestamp := 1, sensor := "s", target := "all",
    groups := [("pcu", [("0", [("a", [("EV", 7)]),
                               ("b", [("EV", 2), ("time_x", 9)])])])] }

/-- Out-of-order inputs that expose the insertion-order release of the
    buffer: timestamp 10 arrives first and is released first. -/
def c7_inputs : List HWPCReport :=
  [targetReport 10 "t", targetReport 5 "t", targetReport 6 "t",
   targetReport 7 "t", targetReport 8 "t", targetReport 9 "t",
   targetReport 1 "t"]

/-- A target report carrying core events on two CPUs, with a time-prefixed
    event to be filtered out. -/
def c9_report : HWPCReport :=
  { timestamp := 1, sensor := "s", target := "t1",
    groups := [("core", [("0", [("cpu0", [("x", 3), ("time_a", 5)]),
                                ("cpu1", [("x", 4), ("y", 2)])])])] }

/-! Basic lemmas about the association-list dictionary operations. -/

theorem dget_dset {κ α : Type} [DecidableEq κ] (m : List (κ × α)) (k e : κ)
    (v : α) : dget (dset m k v) e = if k = e then some v else dget m e := by
  induction m with
  | nil => simp [dset, dget]
  | cons p m ih =>
    by_cases h1 : p.1 = k
    · simp only [dset, h1, if_pos rfl]
      by_cases h2 : k = e <;> simp [dget, h1, h2]
    · obtain ⟨k0, v0⟩ := p
      simp only [dset, dget, if_neg h1]
      by_cases h2 : k0 = e
      · subst h2
        have : ¬ k = k0 := fun h => h1 h.symm
        simp [dget, this]
      · simp [dget, h2, ih]

theorem dget_append {κ α : Type} [DecidableEq κ] (m m' : List (κ × α)) (k : κ) :
    dget (m ++ m') k = ((dget m k).map some).getD (dget m' k) := by
  induction m with
  | nil => simp [dget]
  | cons p m ih =>
    by_cases h : p.1 = k <;> simp [dget, h, ih]

theorem dset_keys_of_mem {κ α : Type} [DecidableEq κ] (m : List (κ × α))
    (k : κ) (v w : α) (hmem : dget m k = some v) :
    (dset m k w).map Prod.fst = m.map Prod.fst := by
  induction m with
  | nil => simp [dget] at hmem
  | cons p m ih =>
    by_cases h : p.1 = k
    · simp [dset, h]
    · simp only [dget, if_neg h] at hmem
      simp [dset, h, ih hmem]

theorem dset_eq_append {κ α : Type} [DecidableEq κ] (m : List (κ × α))
    (k : κ) (v : α) (habs : dget m k = none) : dset m k v = m ++ [(k, v)] := by
  induction m with
  | nil => simp [dset]
  | cons p m ih =>
    by_cases h : p.1 = k
    · simp [dget, h] at habs
    · simp only [dget, if_neg h] at habs
      simp [dset, h, ih habs]

theorem dget_isSome_iff_mem {κ α : Type} [DecidableEq κ] (m : List (κ × α))
    (k : κ) : (dget m k).isSome ↔ k ∈ m.map Prod.fst := by
  induction m with
  | nil => simp [dget]
  | cons p m ih =>
    by_cases h : p.1 = k
    · simp [dget, h]
    · have : ¬ k = p.1 := fun hh => h hh.symm
      simp [dget, h, ih, this]

theorem dget_none_iff_not_mem {κ α : Type} [DecidableEq κ] (m : List (κ × α))
    (k : κ) : dget m k = none ↔ k ∉ m.map Prod.fst := by
  rw [← dget_isSome_iff_mem, Option.isSome_iff_exists]
  cases dget m k <;> simp

theorem dpop_none_iff {κ α : Type} [DecidableEq κ] (m : List (κ × α)) (k : κ) :
    dpop m k = none ↔ dget m k = none := by
  induction m with
  | nil => simp [dpop, dget]
  | cons p m ih =>
    by_cases h : p.1 = k
    · simp [dpop, dget, h]
    · obtain ⟨k0, v0⟩ := p
      simp only [dpop, dget, if_neg h]
      cases hd : dpop m k <;> simp_all

theorem dpop_eq_some {κ α : Type} [DecidableEq κ] (m m' : List (κ × α))
    (k : κ) (v : α) (h : dpop m k = some (v, m')) : dget m k = some v := by
  induction m generalizing m' v with
  | nil => simp [dpop] at h
  | cons p m ih =>
    obtain ⟨k0, v0⟩ := p
    by_cases hk : k0 = k
    · simp only [dpop, if_pos hk, Option.some.injEq, Prod.mk.injEq] at h
      simp [dget, if_pos hk, h.1]
    · simp only [dpop, if_neg hk] at h
      simp only [dget, if_neg hk]
      cases hd : dpop m k with
      | none => rw [hd] at h; simp at h
      | some q =>
        obtain ⟨q1, q2⟩ := q
        rw [hd] at h
        simp only [Option.map_some', Option.some.injEq, Prod.mk.injEq] at h
        rw [← h.1]
        exact ih q2 q1 hd

/-- Whatever the outcome of processing, the oldest tick bucket has been
    removed from the buffer (popitem runs before anything can fail). -/
theorem process_oldest_tick_ticks (h : ReportHandler) :
    (h.process_oldest_tick).1.ticks = h.ticks.tail := by
  unfold ReportHandler.process_oldest_tick
  repeat' first
  | rfl
  | split
  | simp_all

/-- Appending or replacing one key grows an association list by at most one
    entry. -/
theorem dset_length_le {κ α : Type} [DecidableEq κ] (m : List (κ × α))
    (k : κ) (v : α) : (dset m k v).length ≤ m.length + 1 := by
  induction m with
  | nil => simp [dset]
  | cons p m ih =>
    by_cases h : p.1 = k <;> simp [dset, h] <;> omega

/-- C6: when the oldest bucket is released without an all report, the release
    fails with the incomplete-tick error, the bucket is discarded from the
    buffer, and the rest of the handler state is untouched, so subsequent
    ticks are processed as if the bad bucket had never existed. -/
theorem c6_incomplete_tick_discards (h : ReportHandler) (ts : Nat)
    (bucket : List (String × HWPCReport))
    (rest : List (Nat × List (String × HWPCReport)))
    (h1 : h.ticks = (ts, bucket) :: rest) (h2 : dget bucket "all" = none) :
    h.process_oldest_tick = ({ h with ticks := rest }, .error .incompleteTick) := by
  have h3 : dpop bucket "all" = none := (dpop_none_iff bucket "all").mpr h2
  simp [ReportHandler.process_oldest_tick, h1, h3]

/-- C6 witness: the concrete incomplete oldest bucket of c6_handler is dropped
    with the incomplete-tick error and the younger bucket survives. -/
theorem c6_witness :
    c6_handler.process_oldest_tick =
      ({ c6_handler with ticks := [(3, [("all", allReport 3 1)])] },
       .error .incompleteTick) :=
  c6_incomplete_tick_discards c6_handler 2 [("x", targetReport 2 "x")]
    [(3, [("all", allReport 3 1)])] rfl (by decide)

/-- C10: one processed report never leaves more than 5 buckets in the tick
    buffer: the insertion adds at most one bucket and any excess beyond 5
    immediately releases the oldest, so a buffer bounded by 5 stays bounded
    by 5. -/
theorem c10_buffer_bounded (h : ReportHandler) (r : HWPCReport)
    (hlen : h.ticks.length ≤ 5) : ((h.process_report r).1).ticks.length ≤ 5 := by
  have hins : (tick_insert h.ticks r).length ≤ h.ticks.length + 1 :=
    dset_length_le _ _ _
  unfold ReportHandler.process_report
  by_cases hgt : (tick_insert h.ticks r).length > 5
  · simp only [hgt, if_true]
    rw [process_oldest_tick_ticks]
    simp only [List.length_tail]
    omega
  · simp only [hgt, if_false]
    omega

/-- C10 witness: the bound applied to a fresh handler receiving one report. -/
theorem c10_witness :
    (mkHandler "s" "0" "cpu" "RAPL_ENERGY_PKG" 5).ticks.length ≤ 5 ∧
    (((mkHandler "s" "0" "cpu" "RAPL_ENERGY_PKG" 5).process_report
        (allReport 1 7)).1).ticks.length ≤ 5 :=
  ⟨by decide, c10_buffer_bounded _ _ (by decide)⟩

/-- A key that is present can be popped, returning its value. -/
theorem dpop_of_dget {κ α : Type} [DecidableEq κ] (m : List (κ × α)) (k : κ)
    (v : α) (h : dget m k = some v) : ∃ m', dpop m k = some (v, m') := by
  induction m with
  | nil => simp [dget] at h
  | cons p m ih =>
    obtain ⟨k0, v0⟩ := p
    by_cases hk : k0 = k
    · simp only [dget, if_pos hk, Option.some.injEq] at h
      exact ⟨m, by simp [dpop, hk, h]⟩
    · simp only [dget, if_neg hk] at h
      obtain ⟨m', hm'⟩ := ih h
      exact ⟨(k0, v0) :: m', by simp [dpop, hk, hm']⟩


/-- The RAPL events group always decodes to the single reference event
    carrying the raw value scaled by 2 to the power -32. -/
theorem gen_rapl_shape (h : ReportHandler) (g : HWPCReport)
    (rapl : List (String × ℚ)) (hr : h.gen_rapl_events_group g = some rapl) :
    ∃ v : Int, rapl = [(h.rapl_event, (v : ℚ) / 2 ^ 32)] := by
  simp only [ReportHandler.gen_rapl_events_group, Option.bind_eq_some,
    Option.some.injEq, bind, Option.bind] at hr
  rcases h1 : dget g.groups "rapl" with _ | socks <;> rw [h1] at hr <;>
    try simp at hr
  rcases h2 : dget socks h.socket with _ | cpus <;> rw [h2] at hr <;>
    try simp at hr
  rcases h3 : cpus.head? with _ | fst <;> rw [h3] at hr <;> try simp at hr
  rcases h4 : dget fst.2 h.rapl_event with _ | v <;> rw [h4] at hr <;>
    try simp at hr
  exact ⟨v, hr.symm⟩

/-- The specification's RAPL formula at the default 1 second interval is the
    plain 2 to the power -32 scaling. -/
theorem spec_rapl_power_one (v : Int) :
    spec_rapl_power v 1 = (v : ℚ) / 2 ^ 32 := by
  rw [spec_rapl_power, div_one, mul_one_div]

/-- C1 (amended): whenever processing the released oldest bucket emits
    reports, the first one is the RAPL report and its power is exactly the raw
    counter value times 2 to the power -32 — the value the specification's
    formula gives for a 1 second sampling interval; the code never divides by
    a sampling interval. -/
theorem c1_rapl_no_interval_division (h : ReportHandler) (v : Int)
    (rs : List PowerReport)
    (hv : oldest_all_rapl_raw h = some v)
    (hok : (h.process_oldest_tick).2 = Except.ok rs) :
    ∃ pr, rs.head? = some pr ∧ pr.target = "rapl" ∧
      pr.power = (v : ℚ) / 2 ^ 32 ∧ pr.power = spec_rapl_power v 1 := by
  simp only [oldest_all_rapl_raw, bind, Option.bind_eq_some] at hv
  obtain ⟨p, hp, g, hg, socks, hsocks, cpus, hcpus, fst, hfst, hraw⟩ := hv
  cases ht : h.ticks with
  | nil => rw [ht] at hp; simp at hp
  | cons q rest =>
    rw [ht] at hp
    simp only [List.head?_cons, Option.some.injEq] at hp
    subst hp
    obtain ⟨ts, bucket⟩ := q
    obtain ⟨targets, hdpop⟩ := dpop_of_dget bucket "all" g hg
    have hrapl : h.gen_rapl_events_group g =
        some [(h.rapl_event, (v : ℚ) / 2 ^ 32)] := by
      simp [ReportHandler.gen_rapl_events_group, hsocks, hcpus, hfst, hraw]
    have hpr : (h.gen_power_report ts "rapl" h.rapl_event
        ((v : ℚ) / 2 ^ 32)).target = "rapl" := rfl
    simp only [ReportHandler.process_oldest_tick, ht, hdpop, hrapl] at hok
    cases hpcu : h.gen_pcu_events_group g with
    | none => rw [hpcu] at hok; simp at hok
    | some pcu =>
      cases hagg : h.gen_agg_core_report_from_running_targets targets with
      | none => rw [hpcu, hagg] at hok; simp at hok
      | some gcore =>
        rw [hpcu, hagg] at hok
        simp only [dget, if_pos rfl, Option.getD_some] at hok
        rcases hcomp : (h.formula.get_power_model gcore).2.1.compute_power_estimation
            [(h.rapl_event, (v : ℚ) / 2 ^ 32)] pcu gcore gcore with ⟨m1, res⟩
        rw [hcomp] at hok
        cases res with
        | error e =>
          simp only [Except.ok.injEq] at hok
          subst hok
          exact ⟨_, rfl, rfl, rfl, (spec_rapl_power_one v).symm⟩
        | ok system_power =>
          cases htr : h.target_reports ts (h.formula.get_power_model gcore).2.1
              [(h.rapl_event, (v : ℚ) / 2 ^ 32)] pcu gcore targets with
          | none => rw [htr] at hok; simp at hok
          | some treps =>
            rw [htr] at hok
            simp only [Except.ok.injEq] at hok
            subst hok
            exact ⟨_, rfl, rfl, rfl, (spec_rapl_power_one v).symm⟩

/-- Concrete evaluation of the release of c1_handler's bucket: only the RAPL
    report comes out, with power 1 watt for the raw value 2 to the power 32. -/
theorem c1_eval : (c1_handler.process_oldest_tick).2 =
    .ok [c1_handler.gen_power_report 1 "rapl" "RAPL_ENERGY_PKG" 1] := by
  norm_num +decide [c1_handler, mkHandler, ReportHandler.process_oldest_tick, allReport,
    dpop, dget, ReportHandler.gen_rapl_events_group,
    ReportHandler.gen_pcu_events_group, ReportHandler.gen_core_events_group,
    ReportHandler.gen_agg_core_report_from_running_targets,
    SmartWattsFormula.get_power_model, frequency_layer_key,
    PowerModel.compute_power_estimation, PowerModel.initial, PowerModel.store,
    PowerModel.record, PowerModel.fit, learn_min_samples_required,
    learn_history_window_size, SmartWattsFormula.set_model, dset,
    ReportHandler.gen_power_report, SmartWattsFormula.initial]

/-- C1 (counterexample): for the released bucket of c1_handler, whose all
    report carries the reference event with raw value 2 to the power 32, the
    emitted RAPL power is 1 watt; with a configured sampling interval of 2
    seconds the claimed value, raw times 2 to the power -32 divided by the
    interval, differs from it far beyond the stated 10 to the power -9
    relative error, because the code never divides by the sampling interval. -/
theorem c1_counterexample :
    ((c1_handler.process_oldest_tick).2.toOption.bind List.head?).map
        PowerReport.power = some 1 ∧
    ¬ (|(1 : ℚ) - spec_rapl_power (2 ^ 32) 2| ≤
        1 / 1000000000 * spec_rapl_power (2 ^ 32) 2) := by
  constructor
  · rw [c1_eval]; rfl
  · norm_num [spec_rapl_power]
    rw [abs_of_pos (by norm_num : (0 : ℚ) < 1 / 2)]
    norm_num

/-- C1 witness: the amended theorem applied to the concrete released bucket
    of c1_handler. -/
theorem c1_witness :
    ∃ pr, ([c1_handler.gen_power_report 1 "rapl" "RAPL_ENERGY_PKG" 1].head? =
        some pr) ∧ pr.target = "rapl" ∧
      pr.power = ((2 ^ 32 : Int) : ℚ) / 2 ^ 32 ∧
      pr.power = spec_rapl_power (2 ^ 32) 1 :=
  c1_rapl_no_interval_division c1_handler (2 ^ 32) _ (by decide) c1_eval

/-- C2: when the released bucket's system prediction fails because the model
    was never fitted, only the already-built RAPL report is returned (no
    global and no per-target report), yet the trainer still runs: the
    aggregate core features with the RAPL power as label are recorded into the
    selected model's history and the model is fitted, so the model can
    bootstrap. -/
theorem c2_bootstrap_on_uninitialized (h : ReportHandler) (ts : Nat)
    (bucket targets : List (String × HWPCReport))
    (rest : List (Nat × List (String × HWPCReport)))
    (g : HWPCReport) (rapl : List (String × ℚ))
    (pcu gcore : List (String × Int))
    (h1 : h.ticks = (ts, bucket) :: rest)
    (h2 : dpop bucket "all" = some (g, targets))
    (h3 : h.gen_rapl_events_group g = some rapl)
    (h4 : h.gen_pcu_events_group g = some pcu)
    (h5 : h.gen_agg_core_report_from_running_targets targets = some gcore)
    (h6 : (h.formula.get_power_model gcore).2.1.fitted = false) :
    h.process_oldest_tick =
      ({ h with
          ticks := rest
          formula := (h.formula.get_power_model gcore).2.2.set_model
            (h.formula.get_power_model gcore).1
            ((h.formula.get_power_model gcore).2.1.store rapl pcu gcore) },
       .ok [h.gen_power_report ts "rapl" h.rapl_event
              ((dget rapl h.rapl_event).getD 0)]) ∧
    (h.formula.get_power_model gcore).2.1.store rapl pcu gcore =
      ((h.formula.get_power_model gcore).2.1.record gcore
          ((dget rapl h.rapl_event).getD 0)).fit := by
  obtain ⟨v, hv⟩ := gen_rapl_shape h g rapl h3
  constructor
  · simp only [ReportHandler.process_oldest_tick, h1, h2, h3, h4, h5]
    simp only [PowerModel.compute_power_estimation, h6, Bool.false_eq_true,
      if_false]
  · rw [hv]
    simp [PowerModel.store, dget]

/-- C2 witness: the bootstrap behaviour applied to the concrete released
    bucket of c1_handler, whose model is still unfitted. -/
theorem c2_witness :
    c1_handler.process_oldest_tick =
      ({ c1_handler with
          ticks := []
          formula := (c1_handler.formula.get_power_model []).2.2.set_model
            (c1_handler.formula.get_power_model []).1
            ((c1_handler.formula.get_power_model []).2.1.store
              [("RAPL_ENERGY_PKG", ((2 ^ 32 : Int) : ℚ) / 2 ^ 32)] [] []) },
       .ok [c1_handler.gen_power_report 1 "rapl" "RAPL_ENERGY_PKG"
              ((dget [("RAPL_ENERGY_PKG", ((2 ^ 32 : Int) : ℚ) / 2 ^ 32)]
                 "RAPL_ENERGY_PKG").getD 0)]) ∧
    (c1_handler.formula.get_power_model []).2.1.store
        [("RAPL_ENERGY_PKG", ((2 ^ 32 : Int) : ℚ) / 2 ^ 32)] [] [] =
      ((c1_handler.formula.get_power_model []).2.1.record []
          ((dget [("RAPL_ENERGY_PKG", ((2 ^ 32 : Int) : ℚ) / 2 ^ 32)]
             "RAPL_ENERGY_PKG").getD 0)).fit :=
  c2_bootstrap_on_uninitialized c1_handler 1 [("all", allReport 1 (2 ^ 32))]
    [] [] (allReport 1 (2 ^ 32))
    [("RAPL_ENERGY_PKG", ((2 ^ 32 : Int) : ℚ) / 2 ^ 32)] [] []
    rfl (by decide) rfl rfl rfl (by decide)

/-- C3: when the released bucket produced a system prediction, the trainer
    stores a sample into the selected model exactly when the absolute
    difference between the RAPL power and the predicted system power strictly
    exceeds the error threshold, and leaves the model unchanged otherwise; the
    stored sample is the aggregate core features labelled with the RAPL
    power. -/
theorem c3_threshold_contract (h : ReportHandler) (ts : Nat)
    (bucket targets : List (String × HWPCReport))
    (rest : List (Nat × List (String × HWPCReport)))
    (g : HWPCReport) (rapl : List (String × ℚ))
    (pcu gcore : List (String × Int))
    (system_power : ℚ) (treps : List PowerReport)
    (h1 : h.ticks = (ts, bucket) :: rest)
    (h2 : dpop bucket "all" = some (g, targets))
    (h3 : h.gen_rapl_events_group g = some rapl)
    (h4 : h.gen_pcu_events_group g = some pcu)
    (h5 : h.gen_agg_core_report_from_running_targets targets = some gcore)
    (h6 : ((h.formula.get_power_model gcore).2.1.compute_power_estimation
            rapl pcu gcore gcore).2 = .ok system_power)
    (h7 : h.target_reports ts (h.formula.get_power_model gcore).2.1
            rapl pcu gcore targets = some treps) :
    (h.process_oldest_tick).1.formula =
      (h.formula.get_power_model gcore).2.2.set_model
        (h.formula.get_power_model gcore).1
        (if |(dget rapl h.rapl_event).getD 0 - system_power| > h.error_threshold
         then (h.formula.get_power_model gcore).2.1.store rapl pcu gcore
         else (h.formula.get_power_model gcore).2.1) ∧
    (h.formula.get_power_model gcore).2.1.store rapl pcu gcore =
      ((h.formula.get_power_model gcore).2.1.record gcore
          ((dget rapl h.rapl_event).getD 0)).fit := by
  obtain ⟨v, hv⟩ := gen_rapl_shape h g rapl h3
  have hfit : (h.formula.get_power_model gcore).2.1.fitted = true := by
    by_contra hf
    rw [PowerModel.compute_power_estimation, if_neg] at h6
    · simp at h6
    · simpa using hf
  have hpair : (h.formula.get_power_model gcore).2.1.compute_power_estimation
      rapl pcu gcore gcore = ((h.formula.get_power_model gcore).2.1,
        .ok system_power) := by
    have hc := h6
    rw [PowerModel.compute_power_estimation, if_pos (by simpa using hfit)] at hc
    simp only [Except.ok.injEq] at hc
    rw [PowerModel.compute_power_estimation, if_pos (by simpa using hfit)]
    simp only [hc]
  constructor
  · simp only [ReportHandler.process_oldest_tick, h1, h2, h3, h4, h5, hpair, h7]
  · rw [hv]
    simp [PowerModel.store, dget]

/-- C3 witness: the threshold contract applied to the concrete released
    bucket of c5_handler, whose prediction error 1 watt stays below the 1000
    watt threshold, so the model is left untouched. -/
theorem c3_witness :
    (c5_handler.process_oldest_tick).1.formula =
      (c5_handler.formula.get_power_model []).2.2.set_model
        (c5_handler.formula.get_power_model []).1
        (if |(dget [("RAPL_ENERGY_PKG", ((2 ^ 32 : Int) : ℚ) / 2 ^ 32)]
                "RAPL_ENERGY_PKG").getD 0 - 0| > c5_handler.error_threshold
         then (c5_handler.formula.get_power_model []).2.1.store
                [("RAPL_ENERGY_PKG", ((2 ^ 32 : Int) : ℚ) / 2 ^ 32)] [] []
         else (c5_handler.formula.get_power_model []).2.1) ∧
    (c5_handler.formula.get_power_model []).2.1.store
        [("RAPL_ENERGY_PKG", ((2 ^ 32 : Int) : ℚ) / 2 ^ 32)] [] [] =
      ((c5_handler.formula.get_power_model []).2.1.record []
          ((dget [("RAPL_ENERGY_PKG", ((2 ^ 32 : Int) : ℚ) / 2 ^ 32)]
             "RAPL_ENERGY_PKG").getD 0)).fit :=
  c3_threshold_contract c5_handler 3
    [("all", allReport 3 (2 ^ 32)), ("b", targetReport 3 "b"),
     ("a", targetReport 3 "a")]
    [("b", targetReport 3 "b"), ("a", targetReport 3 "a")] []
    (allReport 3 (2 ^ 32))
    [("RAPL_ENERGY_PKG", ((2 ^ 32 : Int) : ℚ) / 2 ^ 32)] [] [] 0
    [c5_handler.gen_power_report 3 "b" fittedModel.hash 0,
     c5_handler.gen_power_report 3 "a" fittedModel.hash 0]
    rfl (by decide) rfl rfl rfl
    (by norm_num +decide [c5_handler, mkHandler, SmartWattsFormula.initial,
      SmartWattsFormula.get_power_model, frequency_layer_key, dget,
      fittedModel, PowerModel.compute_power_estimation, dot_product,
      sum_values])
    (by norm_num +decide [c5_handler, mkHandler, SmartWattsFormula.initial,
      SmartWattsFormula.get_power_model, frequency_layer_key, dget,
      fittedModel, PowerModel.compute_power_estimation, dot_product,
      sum_values, ReportHandler.target_reports, targetReport,
      ReportHandler.gen_core_events_group, ReportHandler.gen_power_report])

/-- Concrete evaluation of the release of c5_handler's bucket: the RAPL
    report, the global report, then the reports of targets b and a in the
    bucket's insertion order. -/
theorem c5_eval : (c5_handler.process_oldest_tick).2 =
    .ok [c5_handler.gen_power_report 3 "rapl" "RAPL_ENERGY_PKG" 1,
         c5_handler.gen_power_report 3 "global" "m0" 0,
         c5_handler.gen_power_report 3 "b" "m0" 0,
         c5_handler.gen_power_report 3 "a" "m0" 0] := by
  norm_num +decide [c5_handler, mkHandler, ReportHandler.process_oldest_tick, allReport,
    targetReport, fittedModel, dpop, dget, ReportHandler.gen_rapl_events_group,
    ReportHandler.gen_pcu_events_group, ReportHandler.gen_core_events_group,
    ReportHandler.gen_agg_core_report_from_running_targets,
    SmartWattsFormula.get_power_model, frequency_layer_key,
    PowerModel.compute_power_estimation, PowerModel.initial, PowerModel.store,
    PowerModel.record, PowerModel.fit, learn_min_samples_required,
    learn_history_window_size, SmartWattsFormula.set_model, dset,
    ReportHandler.gen_power_report, SmartWattsFormula.initial,
    ReportHandler.target_reports, dot_product, sum_values]


/-- The per-target loop emits exactly one report per running target, named
    after it, in the bucket's iteration order. -/
theorem target_reports_targets (h : ReportHandler) (ts : Nat) (m : PowerModel)
    (rapl : List (String × ℚ)) (pcu gcore : List (String × Int))
    (targets : List (String × HWPCReport)) (treps : List PowerReport)
    (ht : h.target_reports ts m rapl pcu gcore targets = some treps) :
    treps.map PowerReport.target = targets.map Prod.fst := by
  induction targets generalizing treps with
  | nil =>
    simp only [ReportHandler.target_reports, Option.some.injEq] at ht
    simp [← ht]
  | cons p l ih =>
    simp only [ReportHandler.target_reports, Option.bind_eq_bind',
      Option.bind_eq_some'] at ht
    obtain ⟨tc, htc, hmatch⟩ := ht
    cases hc : (m.compute_power_estimation rapl pcu gcore tc).2 with
    | error e => rw [hc] at hmatch; simp at hmatch
    | ok tp =>
      rw [hc] at hmatch
      simp only [Option.bind_eq_bind', Option.bind_eq_some',
        Option.some.injEq] at hmatch
      obtain ⟨others, hothers, heq⟩ := hmatch
      rw [← heq]
      simpa using ⟨rfl, ih others hothers⟩

/-- C5 (amended): the reports of a released bucket come out in the order
    RAPL report first, then (when the prediction succeeded) the global report
    followed by one report per running target in the bucket's insertion order
    — the order in which the targets' reports arrived — not sorted by
    target id. -/
theorem c5_emission_order (h : ReportHandler) (rs : List PowerReport)
    (hok : (h.process_oldest_tick).2 = Except.ok rs) :
    rs.map PowerReport.target = ["rapl"] ∨
    rs.map PowerReport.target = "rapl" :: "global" :: oldest_running_targets h := by
  cases ht : h.ticks with
  | nil => simp [ReportHandler.process_oldest_tick, ht] at hok
  | cons q rest =>
    obtain ⟨ts, bucket⟩ := q
    cases hdpop : dpop bucket "all" with
    | none => simp [ReportHandler.process_oldest_tick, ht, hdpop] at hok
    | some p =>
      obtain ⟨g, targets⟩ := p
      simp only [ReportHandler.process_oldest_tick, ht, hdpop] at hok
      cases hrapl : h.gen_rapl_events_group g with
      | none =>
        rw [hrapl] at hok
        cases h.gen_pcu_events_group g <;>
          cases h.gen_agg_core_report_from_running_targets targets <;>
          simp at hok
      | some rapl =>
        rw [hrapl] at hok
        cases hpcu : h.gen_pcu_events_group g with
        | none =>
          rw [hpcu] at hok
          cases h.gen_agg_core_report_from_running_targets targets <;>
            simp at hok
        | some pcu =>
          rw [hpcu] at hok
          cases hagg : h.gen_agg_core_report_from_running_targets targets with
          | none => rw [hagg] at hok; simp at hok
          | some gcore =>
            rw [hagg] at hok
            simp only [] at hok
            rcases hcomp : (h.formula.get_power_model gcore).2.1.compute_power_estimation
                rapl pcu gcore gcore with ⟨m1, res⟩
            rw [hcomp] at hok
            cases res with
            | error e =>
              simp only [Except.ok.injEq] at hok
              subst hok
              exact Or.inl rfl
            | ok system_power =>
              cases htr : h.target_reports ts
                  (h.formula.get_power_model gcore).2.1 rapl pcu gcore targets with
              | none => rw [htr] at hok; simp at hok
              | some treps =>
                rw [htr] at hok
                simp only [Except.ok.injEq] at hok
                subst hok
                refine Or.inr ?olr
                simp only [List.map_cons]
                rw [target_reports_targets h ts _ rapl pcu gcore targets treps htr]
                simp [oldest_running_targets, ht, hdpop,
                  ReportHandler.gen_power_report]

/-- C5 (counterexample): for the released bucket of c5_handler, whose targets
    were inserted in the order b then a, the emitted sequence of targets is
    rapl, global, b, a — the bucket's insertion order — while the claimed
    ascending order of the target ids would be a before b. -/
theorem c5_counterexample :
    ((c5_handler.process_oldest_tick).2.toOption.map
        (fun rs => rs.map PowerReport.target)) =
      some ["rapl", "global", "b", "a"] ∧
    sortStrings ["b", "a"] = ["a", "b"] ∧
    (["rapl", "global", "b", "a"] : List String) ≠
      ["rapl", "global", "a", "b"] := by
  refine ⟨?e1, by decide, by decide⟩
  rw [c5_eval]
  rfl




/-- C8 (counterexample): the decoded PCU events group of c8_report_ba is the
    first-listed CPU b's events, not the lexicographically smallest CPU a's;
    and permuting the per-CPU mapping (same content, different iteration
    order) changes the result, so the decoding does depend on the iteration
    order of the mapping. -/
theorem c8_counterexample :
    c8_handler.gen_pcu_events_group c8_report_ba = some [("EV", 2)] ∧
    spec_pcu_events_smallest "0" c8_report_ba = some [("EV", 7)] ∧
    List.Perm
      [("b", [("EV", (2 : Int)), ("time_x", 9)]), ("a", [("EV", 7)])]
      [("a", [("EV", 7)]), ("b", [("EV", 2), ("time_x", 9)])] ∧
    c8_handler.gen_pcu_events_group c8_report_ba ≠
      c8_handler.gen_pcu_events_group c8_report_ab := by
  refine ⟨by decide, by decide, by decide, by decide⟩

/-- C8 (amended): the PCU event vector is taken from the first CPU entry in
    the per-CPU mapping's iteration (insertion) order, filtered of time_
    events — not from the lexicographically smallest cpu_id — and the RAPL
    reference event is read from the first CPU entry of the rapl group in the
    same way. -/
theorem c8_first_cpu_is_iteration_order (h : ReportHandler) :
    (∀ (r : HWPCReport)
       (socks : List (String × List (String × List (String × Int))))
       (cid : String) (evs : List (String × Int))
       (cpus : List (String × List (String × Int))),
       dget r.groups "pcu" = some socks →
       dget socks h.socket = some ((cid, evs) :: cpus) →
       h.gen_pcu_events_group r =
         some (evs.filter (fun q => !(str_starts_with q.1 "time_")))) ∧
    (∀ (r : HWPCReport)
       (socks : List (String × List (String × List (String × Int))))
       (cid : String) (evs : List (String × Int))
       (cpus : List (String × List (String × Int))),
       dget r.groups "rapl" = some socks →
       dget socks h.socket = some ((cid, evs) :: cpus) →
       h.gen_rapl_events_group r =
         (dget evs h.rapl_event).map
           (fun v => [(h.rapl_event, (v : ℚ) / 2 ^ 32)])) := by
  constructor
  · intro r socks cid evs cpus h1 h2
    simp [ReportHandler.gen_pcu_events_group, h1, h2]
  · intro r socks cid evs cpus h1 h2
    cases hv : dget evs h.rapl_event with
    | none => simp [ReportHandler.gen_rapl_events_group, h1, h2, hv]
    | some v => simp [ReportHandler.gen_rapl_events_group, h1, h2, hv]

/-- C8 witness: the amended first-CPU rule applied to the concrete report
    c8_report_ba, whose first-listed CPU is b. -/
theorem c8_witness :
    c8_handler.gen_pcu_events_group c8_report_ba =
      some ([("EV", (2 : Int)), ("time_x", 9)].filter
        (fun q => !(str_starts_with q.1 "time_"))) :=
  (c8_first_cpu_is_iteration_order c8_handler).1 c8_report_ba
    [("0", [("b", [("EV", 2), ("time_x", 9)]), ("a", [("EV", 7)])])]
    "b" [("EV", 2), ("time_x", 9)] [("a", [("EV", 7)])]
    (by decide) (by decide)

/-! Lemmas on defaultdict accumulation, for the core events sums. -/

/-- Accumulating v at key k shifts e's looked-up value by v exactly when
    k = e. -/
theorem dget_dadd_getD {κ : Type} [DecidableEq κ] (m : List (κ × Int))
    (k e : κ) (v : Int) :
    (dget (dadd m k v) e).getD 0 =
      (dget m e).getD 0 + (if k = e then v else 0) := by
  unfold dadd
  cases hm : dget m k with
  | some w =>
    rw [dget_dset]
    by_cases hke : k = e
    · subst hke; simp [hm]
    · simp [hke]
  | none =>
    rw [dget_append]
    by_cases hke : k = e
    · subst hke; simp [hm, dget]
    · cases he : dget m e <;> simp [dget, hke, he]

/-- Accumulation can only create the key it accumulates at. -/
theorem dget_dadd_none {κ : Type} [DecidableEq κ] (m : List (κ × Int))
    (k e : κ) (v : Int) (hne : ¬ k = e) (he : dget m e = none) :
    dget (dadd m k v) e = none := by
  unfold dadd
  cases hm : dget m k with
  | some w => rw [dget_dset, if_neg hne]; exact he
  | none => rw [dget_append]; simp [he, dget, hne]

/-- Folding a list of events into a defaultdict adds, at each key, the sum of
    the matching values. -/
theorem dget_fold_dadd (l : List (String × Int)) (acc : List (String × Int))
    (e : String) :
    (dget (l.foldl (fun a q => dadd a q.1 q.2) acc) e).getD 0 =
      (dget acc e).getD 0 +
        ((l.filter (fun q => q.1 == e)).map Prod.snd).sum := by
  induction l generalizing acc with
  | nil => simp
  | cons q l ih =>
    rw [List.foldl_cons, ih]
    by_cases hqe : q.1 = e
    · simp [List.filter_cons, hqe, dget_dadd_getD]
      ring
    · have : (q.1 == e) = false := by simpa using hqe
      simp [List.filter_cons, this, dget_dadd_getD, hqe]

/-- Folding events whose keys avoid e never creates the key e. -/
theorem dget_fold_dadd_none (l : List (String × Int))
    (acc : List (String × Int)) (e : String)
    (hl : ∀ q ∈ l, ¬ q.1 = e) (hacc : dget acc e = none) :
    dget (l.foldl (fun a q => dadd a q.1 q.2) acc) e = none := by
  induction l generalizing acc with
  | nil => simpa
  | cons q l ih =>
    rw [List.foldl_cons]
    exact ih (dadd acc q.1 q.2)
      (fun p hp => hl p (List.mem_cons_of_mem q hp))
      (dget_dadd_none acc q.1 e q.2 (hl q (List.mem_cons_self q l)) hacc)

/-- Filtering for one non-time event name commutes away the time filter. -/
theorem filter_time_filter_eq (l : List (String × Int)) (e : String)
    (he : str_starts_with e "time_" = false) :
    (l.filter (fun q => !(str_starts_with q.1 "time_"))).filter
        (fun q => q.1 == e) =
      l.filter (fun q => q.1 == e) := by
  induction l with
  | nil => rfl
  | cons q l ih =>
    by_cases hqe : q.1 = e
    · have hb : (q.1 == e) = true := by simpa using hqe
      have hnt : (!(str_starts_with q.1 "time_")) = true := by
        rw [hqe, he]; rfl
      simp [List.filter_cons, hb, hnt, ih]
    · have hb : (q.1 == e) = false := by simpa using hqe
      by_cases hq : str_starts_with q.1 "time_" = true <;>
        simp [List.filter_cons, hb, hq, ih]

/-- Summing the per-CPU filtered events over a socket realises the per-event
    totals of the specification, for any non-time event name. -/
theorem dget_core_fold (cpus : List (String × List (String × Int)))
    (acc : List (String × Int)) (e : String)
    (he : str_starts_with e "time_" = false) :
    (dget (cpus.foldl (fun acc p =>
        (p.2.filter (fun q => !(str_starts_with q.1 "time_"))).foldl
          (fun a q => dadd a q.1 q.2) acc) acc) e).getD 0 =
      (dget acc e).getD 0 + spec_event_total cpus e := by
  induction cpus generalizing acc with
  | nil => simp [spec_event_total]
  | cons p cpus ih =>
    rw [List.foldl_cons, ih, dget_fold_dadd, filter_time_filter_eq _ _ he]
    simp only [spec_event_total, List.map_cons, List.sum_cons]
    ring

/-- The per-socket sum never creates a time-prefixed event name. -/
theorem dget_core_fold_none (cpus : List (String × List (String × Int)))
    (acc : List (String × Int)) (e : String)
    (he : str_starts_with e "time_" = true) (hacc : dget acc e = none) :
    dget (cpus.foldl (fun acc p =>
        (p.2.filter (fun q => !(str_starts_with q.1 "time_"))).foldl
          (fun a q => dadd a q.1 q.2) acc) acc) e = none := by
  induction cpus generalizing acc with
  | nil => simpa
  | cons p cpus ih =>
    rw [List.foldl_cons]
    refine ih _ (dget_fold_dadd_none _ _ _ ?hq hacc)
    intro q hq hqe
    rw [List.mem_filter] at hq
    rw [hqe, he] at hq
    simpa using hq.2

/-- Accumulation preserves distinctness of the keys. -/
theorem dadd_keys_nodup {κ : Type} [DecidableEq κ] (m : List (κ × Int))
    (k : κ) (v : Int) (h : (m.map Prod.fst).Nodup) :
    ((dadd m k v).map Prod.fst).Nodup := by
  unfold dadd
  cases hm : dget m k with
  | some w => rw [dset_keys_of_mem m k w (w + v) hm]; exact h
  | none =>
    rw [List.map_append]
    refine h.append (by simp) ?hd
    intro a ha hb
    simp only [List.map_cons, List.map_nil, List.mem_singleton] at hb
    exact absurd (hb ▸ ha) ((dget_none_iff_not_mem m k).mp hm)

/-- Folding events into a defaultdict preserves distinctness of the keys. -/
theorem fold_dadd_keys_nodup (l : List (String × Int))
    (acc : List (String × Int)) (h : (acc.map Prod.fst).Nodup) :
    ((l.foldl (fun a q => dadd a q.1 q.2) acc).map Prod.fst).Nodup := by
  induction l generalizing acc with
  | nil => simpa
  | cons q l ih => rw [List.foldl_cons]; exact ih _ (dadd_keys_nodup _ _ _ h)

/-- The per-socket core summation preserves distinctness of the keys. -/
theorem core_fold_keys_nodup (cpus : List (String × List (String × Int)))
    (acc : List (String × Int)) (h : (acc.map Prod.fst).Nodup) :
    ((cpus.foldl (fun acc p =>
        (p.2.filter (fun q => !(str_starts_with q.1 "time_"))).foldl
          (fun a q => dadd a q.1 q.2) acc) acc).map Prod.fst).Nodup := by
  induction cpus generalizing acc with
  | nil => simpa
  | cons p cpus ih =>
    rw [List.foldl_cons]
    exact ih _ (fold_dadd_keys_nodup _ _ h)

/-- The decoded core events group has distinct event names. -/
theorem gen_core_keys_nodup (h : ReportHandler) (r : HWPCReport)
    (g : List (String × Int)) (hg : h.gen_core_events_group r = some g) :
    (g.map Prod.fst).Nodup := by
  simp only [ReportHandler.gen_core_events_group, Option.bind_eq_bind',
    Option.bind_eq_some', Option.some.injEq] at hg
  obtain ⟨socks, hsocks, cpus, hcpus, hfold⟩ := hg
  rw [← hfold]
  exact core_fold_keys_nodup cpus [] (by simp)

/-- On an association list with distinct keys, summing the values whose key
    matches e recovers the looked-up value. -/
theorem filter_sum_eq_dget (m : List (String × Int)) (e : String)
    (h : (m.map Prod.fst).Nodup) :
    ((m.filter (fun q => q.1 == e)).map Prod.snd).sum = (dget m e).getD 0 := by
  induction m with
  | nil => simp [dget]
  | cons q m ih =>
    simp only [List.map_cons, List.nodup_cons] at h
    by_cases hqe : q.1 = e
    · have hb : (q.1 == e) = true := by simpa using hqe
      have hrest : m.filter (fun q => q.1 == e) = [] := by
        rw [List.filter_eq_nil_iff]
        intro p hp hpe
        refine h.1 ?hmem
        rw [hqe]
        have hpe2 : p.1 = e := by simpa using hpe
        rw [← hpe2]
        exact List.mem_map_of_mem Prod.fst hp
      simp [List.filter_cons, hb, hrest, dget, hqe]
    · have hb : (q.1 == e) = false := by simpa using hqe
      simp [List.filter_cons, hb, dget, hqe, ih h.2]

/-- Aggregating the targets' core groups adds, per event, each target's core
    value. -/
theorem dget_agg_fold (h : ReportHandler)
    (targets : List (String × HWPCReport)) (acc m : List (String × Int))
    (hm : List.foldlM (fun acc p => do
        let g ← h.gen_core_events_group p.2
        some (g.foldl (fun a q => dadd a q.1 q.2) acc)) acc targets = some m)
    (e : String) :
    (dget m e).getD 0 =
      (dget acc e).getD 0 +
        (targets.map (fun p =>
          ((h.gen_core_events_group p.2).bind
            (fun g => dget g e)).getD 0)).sum := by
  induction targets generalizing acc with
  | nil =>
    simp only [List.foldlM_nil, Option.pure_def, Option.some.injEq] at hm
    simp [hm]
  | cons p targets ih =>
    simp only [List.foldlM_cons, Option.bind_eq_bind',
      Option.bind_eq_some'] at hm
    obtain ⟨acc1, hstep, hrest⟩ := hm
    simp only [Option.bind_eq_bind', Option.bind_eq_some',
      Option.some.injEq] at hstep
    obtain ⟨g, hg, hfold⟩ := hstep
    rw [ih _ hrest, ← hfold, dget_fold_dadd,
      filter_sum_eq_dget g e (gen_core_keys_nodup h p.2 g hg)]
    simp only [List.map_cons, List.sum_cons, hg, Option.some_bind]
    ring

/-- C9: the core events group of a report maps each non-time event name to
    the integer sum of its values over all CPUs of the socket and holds no
    time-prefixed name, and the aggregate core group of a set of target
    reports maps each event name to the sum of the targets' core values for
    it (in _process_oldest_tick the set passed in is the bucket without the
    all entry). -/
theorem c9_core_events_sums (h : ReportHandler) :
    (∀ (r : HWPCReport)
       (socks : List (String × List (String × List (String × Int))))
       (cpus : List (String × List (String × Int)))
       (m : List (String × Int)),
       dget r.groups "core" = some socks →
       dget socks h.socket = some cpus →
       h.gen_core_events_group r = some m →
       (∀ e, str_starts_with e "time_" = true → dget m e = none) ∧
       (∀ e, str_starts_with e "time_" = false →
         (dget m e).getD 0 = spec_event_total cpus e)) ∧
    (∀ (targets : List (String × HWPCReport)) (m : List (String × Int)),
       h.gen_agg_core_report_from_running_targets targets = some m →
       ∀ e, (dget m e).getD 0 =
         (targets.map (fun p =>
           ((h.gen_core_events_group p.2).bind
             (fun g => dget g e)).getD 0)).sum) := by
  constructor
  · intro r socks cpus m h1 h2 hg
    simp only [ReportHandler.gen_core_events_group, h1, h2,
      Option.bind_eq_bind', Option.some_bind, Option.some.injEq] at hg
    constructor
    · intro e he
      rw [← hg]
      exact dget_core_fold_none cpus [] e he (by simp [dget])
    · intro e he
      rw [← hg, dget_core_fold cpus [] e he]
      simp [dget]
  · intro targets m hagg e
    have hfold := dget_agg_fold h targets [] m hagg e
    simpa [dget] using hfold

/-- Inserting a report whose timestamp already has a bucket keeps the
    buffer's keys unchanged. -/
theorem tick_insert_keys_mem (ticks : List (Nat × List (String × HWPCReport)))
    (r : HWPCReport) (b : List (String × HWPCReport))
    (hd : dget ticks r.timestamp = some b) :
    (tick_insert ticks r).map Prod.fst = ticks.map Prod.fst := by
  unfold tick_insert
  exact dset_keys_of_mem ticks r.timestamp b _ hd

/-- Inserting a report with a fresh timestamp appends its bucket at the end
    of the buffer. -/
theorem tick_insert_new (ticks : List (Nat × List (String × HWPCReport)))
    (r : HWPCReport) (hd : dget ticks r.timestamp = none) :
    tick_insert ticks r = ticks ++ [(r.timestamp, [(r.target, r)])] := by
  unfold tick_insert
  rw [hd, dset_eq_append ticks r.timestamp _ hd]
  rfl

/-- A duplicate-free list contained in another list is no longer than it. -/
theorem nodup_subset_length_le {α : Type} [DecidableEq α] (l l' : List α)
    (hn : l.Nodup) (hs : ∀ a ∈ l, a ∈ l') : l.length ≤ l'.length := by
  calc l.length = l.toFinset.card := (List.toFinset_card_of_nodup hn).symm
  _ ≤ l'.toFinset.card := Finset.card_le_card (fun a ha =>
      List.mem_toFinset.mpr (hs a (List.mem_toFinset.mp ha)))
  _ ≤ l'.length := l'.toFinset_card_le

/-- While the timestamps seen stay within a set of at most 5 values, the
    handler keeps buffering and emits nothing. -/
theorem run_reports_nil (rs : List HWPCReport) (h : ReportHandler)
    (allTs : List Nat)
    (hsub : ∀ k ∈ h.ticks.map Prod.fst, k ∈ allTs)
    (hfut : ∀ r ∈ rs, r.timestamp ∈ allTs)
    (hnodup : (h.ticks.map Prod.fst).Nodup)
    (hcard : allTs.length ≤ 5) :
    h.run_reports rs = [] := by
  induction rs generalizing h with
  | nil => rfl
  | cons r rs ih =>
    have hts : r.timestamp ∈ allTs := hfut r (List.mem_cons_self r rs)
    have hkeys : ∀ k ∈ (tick_insert h.ticks r).map Prod.fst, k ∈ allTs := by
      cases hd : dget h.ticks r.timestamp with
      | some b =>
        rw [tick_insert_keys_mem h.ticks r b hd]
        exact hsub
      | none =>
        rw [tick_insert_new h.ticks r hd]
        intro k hk
        simp only [List.map_append, List.map_cons, List.map_nil,
          List.mem_append, List.mem_singleton] at hk
        cases hk with
        | inl hk => exact hsub k hk
        | inr hk => rw [hk]; exact hts
    have hkeysnd : ((tick_insert h.ticks r).map Prod.fst).Nodup := by
      cases hd : dget h.ticks r.timestamp with
      | some b => rw [tick_insert_keys_mem h.ticks r b hd]; exact hnodup
      | none =>
        rw [tick_insert_new h.ticks r hd]
        simp only [List.map_append, List.map_cons, List.map_nil]
        refine hnodup.append (by simp) ?hdisj
        intro a ha hb
        simp only [List.mem_singleton] at hb
        exact absurd (hb ▸ ha) ((dget_none_iff_not_mem _ _).mp hd)
    have hlen : (tick_insert h.ticks r).length ≤ 5 := by
      have h1 : ((tick_insert h.ticks r).map Prod.fst).length ≤ allTs.length :=
        nodup_subset_length_le _ _ hkeysnd hkeys
      rw [List.length_map] at h1
      omega
    have hng : ¬ (tick_insert h.ticks r).length > 5 := by omega
    show (match ((h.process_report r).2 : Except TickError (List PowerReport)) with
      | .ok ps => ps
      | .error _ => []) ++ (h.process_report r).1.run_reports rs = []
    rw [ReportHandler.process_report]
    simp only [if_neg hng]
    exact ih { h with ticks := tick_insert h.ticks r } hkeys
      (fun q hq => hfut q (List.mem_cons_of_mem r hq)) hkeysnd

/-- C4: an input stream with fewer than 6 distinct timestamps never fills the
    tick buffer beyond the look-ahead of 5, so no bucket is ever released and
    the handler emits no power report: every received report yields an empty
    result. -/
theorem c4_warmup (sensor socket scope ev : String) (thr : ℚ)
    (rs : List HWPCReport)
    (hdist : ((rs.map HWPCReport.timestamp).dedup).length < 6) :
    (mkHandler sensor socket scope ev thr).run_reports rs = [] :=
  run_reports_nil rs _ ((rs.map HWPCReport.timestamp).dedup)
    (by intro k hk; simp [mkHandler] at hk)
    (fun r hr => List.mem_dedup.mpr (List.mem_map_of_mem _ hr))
    (by simp [mkHandler])
    (by omega)

/-- C4 witness: ten reports spread over five distinct timestamps produce no
    output. -/
theorem c4_witness :
    (mkHandler "s" "0" "cpu" "RAPL_ENERGY_PKG" 5).run_reports
      [allReport 1 7, targetReport 1 "t", allReport 2 7, targetReport 2 "t",
       allReport 3 7, targetReport 3 "t", allReport 4 7, targetReport 4 "t",
       allReport 5 7, targetReport 5 "t"] = [] :=
  c4_warmup "s" "0" "cpu" "RAPL_ENERGY_PKG" 5
    [allReport 1 7, targetReport 1 "t", allReport 2 7, targetReport 2 "t",
     allReport 3 7, targetReport 3 "t", allReport 4 7, targetReport 4 "t",
     allReport 5 7, targetReport 5 "t"] (by decide)

/-- The tick buffer after a processed report: the inserted buffer, beheaded
    when it overflowed the look-ahead. -/
theorem process_report_ticks (h : ReportHandler) (r : HWPCReport) :
    ((h.process_report r).1).ticks =
      if (tick_insert h.ticks r).length > 5 then (tick_insert h.ticks r).tail
      else tick_insert h.ticks r := by
  rw [ReportHandler.process_report]
  by_cases hgt : (tick_insert h.ticks r).length > 5
  · simp only [if_pos hgt]
    exact process_oldest_tick_ticks _
  · simp only [if_neg hgt]


/-- C7 (counterexample): on the out-of-order stream c7_inputs the tick buffer
    releases the buckets with timestamps 10 then 5 — its insertion order —
    which is not strictly increasing. -/
theorem c7_counterexample :
    (mkHandler "s" "0" "cpu" "RAPL_ENERGY_PKG" 5).run_releases c7_inputs =
      [10, 5] ∧
    ¬ ([10, 5] : List Nat).Pairwise (· < ·) := by
  constructor
  · decide
  · decide

/-- Invariant induction for the release order: with strictly increasing
    buffer keys that dominate everything already released and are dominated by
    every future arrival, a timestamp-sorted input keeps the full release
    sequence strictly increasing. -/
theorem run_releases_pairwise (rs : List HWPCReport) (h : ReportHandler)
    (done : List Nat)
    (hknd : (h.ticks.map Prod.fst).Pairwise (· < ·))
    (hlen : h.ticks.length ≤ 5)
    (hdk : ∀ d ∈ done, ∀ k ∈ h.ticks.map Prod.fst, d < k)
    (hkf : ∀ k ∈ h.ticks.map Prod.fst, ∀ q ∈ rs, k ≤ q.timestamp)
    (hdf : ∀ d ∈ done, ∀ q ∈ rs, d < q.timestamp)
    (hsorted : (rs.map HWPCReport.timestamp).Pairwise (· ≤ ·))
    (hdone : done.Pairwise (· < ·)) :
    (done ++ h.run_releases rs).Pairwise (· < ·) := by
  induction rs generalizing h done with
  | nil => simpa [ReportHandler.run_releases]
  | cons r rs ih =>
    have hsrt := List.pairwise_cons.mp hsorted
    have hr_le : ∀ q ∈ rs, r.timestamp ≤ q.timestamp := by
      intro q hq
      exact hsrt.1 q.timestamp (List.mem_map_of_mem _ hq)
    simp only [ReportHandler.run_releases]
    have hpt := process_report_ticks h r
    cases hd : dget h.ticks r.timestamp with
    | some b =>
      have hkeq := tick_insert_keys_mem h.ticks r b hd
      have hleneq : (tick_insert h.ticks r).length = h.ticks.length := by
        have hc := congrArg List.length hkeq
        simpa using hc
      have hng : ¬ (tick_insert h.ticks r).length > 5 := by omega
      rw [if_neg hng] at hpt
      simp only [if_neg hng, List.nil_append]
      refine ih ((h.process_report r).1) done ?a1 ?a2 ?a3 ?a4 ?a5 hsrt.2 hdone
      · rw [hpt, hkeq]; exact hknd
      · rw [hpt]; omega
      · rw [hpt, hkeq]; exact hdk
      · rw [hpt, hkeq]
        exact fun k hk q hq => hkf k hk q (List.mem_cons_of_mem r hq)
      · exact fun d hdm q hq => hdf d hdm q (List.mem_cons_of_mem r hq)
    | none =>
      have hins := tick_insert_new h.ticks r hd
      have hklt : ∀ k ∈ h.ticks.map Prod.fst, k < r.timestamp := by
        intro k hk
        have hle := hkf k hk r (List.mem_cons_self r rs)
        have hne : k ≠ r.timestamp := by
          intro he
          exact absurd (he ▸ hk) ((dget_none_iff_not_mem _ _).mp hd)
        omega
      have hkeys2 : (tick_insert h.ticks r).map Prod.fst =
          h.ticks.map Prod.fst ++ [r.timestamp] := by
        rw [hins]; simp
      have hnd2 : ((tick_insert h.ticks r).map Prod.fst).Pairwise (· < ·) := by
        rw [hkeys2, List.pairwise_append]
        exact ⟨hknd, by simp, fun a ha b hb => by
          simp only [List.mem_singleton] at hb
          exact hb ▸ hklt a ha⟩
      have hlen2 : (tick_insert h.ticks r).length = h.ticks.length + 1 := by
        rw [hins]; simp
      by_cases hgt : (tick_insert h.ticks r).length > 5
      · have hlen5 : h.ticks.length = 5 := by omega
        rw [if_pos hgt] at hpt
        cases hticks : h.ticks with
        | nil => rw [hticks] at hlen5; simp at hlen5
        | cons q0 rest =>
          rw [hticks] at hins hgt hpt hnd2
          have ht0 : tick_insert (q0 :: rest) r =
              q0 :: (rest ++ [(r.timestamp, [(r.target, r)])]) := by
            rw [hins]; rfl
          have hq0k : q0.1 ∈ h.ticks.map Prod.fst := by
            rw [hticks]; simp
          have htl : ((h.process_report r).1).ticks =
              rest ++ [(r.timestamp, [(r.target, r)])] := by
            rw [hpt, ht0]; rfl
          simp only [if_pos hgt, ht0, List.map_cons, List.take_succ_cons,
            List.take_zero]
          have hgt2 : (q0 :: (rest ++ [(r.timestamp,
              [(r.target, r)])])).length > 5 := ht0 ▸ hgt
          rw [if_pos hgt2]
          rw [show done ++ ([q0.1] ++
              ((h.process_report r).1.run_releases rs)) =
            (done ++ [q0.1]) ++ ((h.process_report r).1.run_releases rs) from
            (List.append_assoc done [q0.1] _).symm]
          have hnd2' := hnd2
          rw [ht0, List.map_cons, List.pairwise_cons] at hnd2'
          refine ih ((h.process_report r).1) (done ++ [q0.1]) ?b1 ?b2 ?b3 ?b4
            ?b5 hsrt.2 ?b6
          · rw [htl]; exact hnd2'.2
          · rw [htl]
            have hrl : rest.length = 4 := by
              rw [hticks] at hlen5; simpa using hlen5
            simp [hrl]
          · rw [htl]
            intro d hdm k hk
            rcases List.mem_append.mp hdm with hdm1 | hdm2
            · rw [List.map_append] at hk
              rcases List.mem_append.mp hk with hk1 | hk2
              · exact hdk d hdm1 k (by rw [hticks]; simp [hk1])
              · have hkr : k = r.timestamp := by simpa using hk2
                exact hkr ▸ hdf d hdm1 r (List.mem_cons_self r rs)
            · have hdq : d = q0.1 := by simpa using hdm2
              subst hdq
              exact hnd2'.1 k hk
          · rw [htl]
            intro k hk q hq
            rw [List.map_append] at hk
            rcases List.mem_append.mp hk with hk1 | hk2
            · exact hkf k (by rw [hticks]; simp [hk1]) q
                (List.mem_cons_of_mem r hq)
            · have hkr : k = r.timestamp := by simpa using hk2
              exact hkr ▸ hr_le q hq
          · intro d hdm q hq
            rcases List.mem_append.mp hdm with hdm1 | hdm2
            · exact hdf d hdm1 q (List.mem_cons_of_mem r hq)
            · have hdq : d = q0.1 := by simpa using hdm2
              subst hdq
              have h1 : q0.1 < r.timestamp := hklt q0.1 hq0k
              have h2 : r.timestamp ≤ q.timestamp := hr_le q hq
              omega
          · rw [List.pairwise_append]
            exact ⟨hdone, by simp, fun a ha b hb => by
              have hbq : b = q0.1 := by simpa using hb
              exact hbq ▸ hdk a ha q0.1 hq0k⟩
      · rw [if_neg hgt] at hpt
        simp only [if_neg hgt, List.nil_append]
        refine ih ((h.process_report r).1) done ?c1 ?c2 ?c3 ?c4 ?c5 hsrt.2
          hdone
        · rw [hpt]; exact hnd2
        · rw [hpt]; omega
        · rw [hpt]
          intro d hdm k hk
          rcases List.mem_append.mp (by rw [hkeys2] at hk; exact hk) with
            hk1 | hk2
          · exact hdk d hdm k hk1
          · have hkr : k = r.timestamp := by simpa using hk2
            exact hkr ▸ hdf d hdm r (List.mem_cons_self r rs)
        · rw [hpt]
          intro k hk q hq
          rcases List.mem_append.mp (by rw [hkeys2] at hk; exact hk) with
            hk1 | hk2
          · exact hkf k hk1 q (List.mem_cons_of_mem r hq)
          · have hkr : k = r.timestamp := by simpa using hk2
            exact hkr ▸ hr_le q hq
        · exact fun d hdm q hq => hdf d hdm q (List.mem_cons_of_mem r hq)

/-- C7 (amended): the tick buffer releases buckets in the insertion order of
    their timestamps; when the input stream's timestamps arrive in
    non-decreasing order the released sequence is strictly increasing, but an
    out-of-order stream is released in arrival order, not timestamp order. -/
theorem c7_release_order (sensor socket scope ev : String) (thr : ℚ)
    (rs : List HWPCReport)
    (hsorted : (rs.map HWPCReport.timestamp).Pairwise (· ≤ ·)) :
    ((mkHandler sensor socket scope ev thr).run_releases rs).Pairwise
      (· < ·) := by
  have hmain := run_releases_pairwise rs (mkHandler sensor socket scope ev thr)
    [] (by simp [mkHandler]) (by simp [mkHandler]) (by simp)
    (by simp [mkHandler]) (by simp) hsorted (by simp)
  simpa using hmain

/-- C7 witness: seven reports arriving in increasing timestamp order release
    a strictly increasing sequence of buckets. -/
theorem c7_witness :
    ((mkHandler "s" "0" "cpu" "RAPL_ENERGY_PKG" 5).run_releases
      [targetReport 1 "t", targetReport 2 "t", targetReport 3 "t",
       targetReport 4 "t", targetReport 5 "t", targetReport 6 "t",
       targetReport 7 "t"]).Pairwise (· < ·) :=
  c7_release_order "s" "0" "cpu" "RAPL_ENERGY_PKG" 5
    [targetReport 1 "t", targetReport 2 "t", targetReport 3 "t",
     targetReport 4 "t", targetReport 5 "t", targetReport 6 "t",
     targetReport 7 "t"] (by decide)


/-- C9 witness: the sums applied to the concrete report c9_report, whose x
    event totals 7 across the two CPUs, whose time_a event is filtered out,
    and whose one-target aggregate coincides with its core group. -/
theorem c9_witness :
    dget [("x", (7 : Int)), ("y", 2)] "time_a" = none ∧
    (dget [("x", (7 : Int)), ("y", 2)] "x").getD 0 =
      spec_event_total [("cpu0", [("x", 3), ("time_a", 5)]),
                        ("cpu1", [("x", 4), ("y", 2)])] "x" ∧
    (dget [("x", (7 : Int)), ("y", 2)] "x").getD 0 =
      ([("t1", c9_report)].map (fun p =>
        ((c8_handler.gen_core_events_group p.2).bind
          (fun g => dget g "x")).getD 0)).sum :=
  ⟨((c9_core_events_sums c8_handler).1 c9_report
      [("0", [("cpu0", [("x", 3), ("time_a", 5)]),
              ("cpu1", [("x", 4), ("y", 2)])])]
      [("cpu0", [("x", 3), ("time_a", 5)]), ("cpu1", [("x", 4), ("y", 2)])]
      [("x", 7), ("y", 2)] (by decide) (by decide) (by decide)).1
      "time_a" (by decide),
   ((c9_core_events_sums c8_handler).1 c9_report
      [("0", [("cpu0", [("x", 3), ("time_a", 5)]),
              ("cpu1", [("x", 4), ("y", 2)])])]
      [("cpu0", [("x", 3), ("time_a", 5)]), ("cpu1", [("x", 4), ("y", 2)])]
      [("x", 7), ("y", 2)] (by decide) (by decide) (by decide)).2
      "x" (by decide),
   (c9_core_events_sums c8_handler).2 [("t1", c9_report)]
      [("x", 7), ("y", 2)] (by decide) "x"⟩

/-- C5 witness: the amended emission order applied to the concrete released
    bucket of c5_handler. -/
theorem c5_witness :
    ([c5_handler.gen_power_report 3 "rapl" "RAPL_ENERGY_PKG" 1,
      c5_handler.gen_power_report 3 "global" "m0" 0,
      c5_handler.gen_power_report 3 "b" "m0" 0,
      c5_handler.gen_power_report 3 "a" "m0" 0].map PowerReport.target =
        ["rapl"]) ∨
    ([c5_handler.gen_power_report 3 "rapl" "RAPL_ENERGY_PKG" 1,
      c5_handler.gen_power_report 3 "global" "m0" 0,
      c5_handler.gen_power_report 3 "b" "m0" 0,
      c5_handler.gen_power_report 3 "a" "m0" 0].map PowerReport.target =
        "rapl" :: "global" :: oldest_running_targets c5_handler) :=
  c5_emission_order c5_handler _ c5_eval
